import Mathlib

/-!
Verification of the AutoProf isophote-initialization core and pipeline driver.

The development shallowly embeds two source files:

* `autoprofutils/Isophote_Initialize.py` — the functions
  `Isophote_Initialize_CircFit`, `Isophote_Initialize_GridSearch` and the
  helper `_CircfitEllip_loss`.  Image sampling (`_iso_extract`, defined in
  `SharedFunctions.py`, outside the sources under study), the FFT, `np.quantile`,
  `np.angle`, `scipy.optimize.minimize`, `scipy.stats.iqr` and the
  ellipticity reparametrisation `_x_to_eps`/`_inv_x_to_eps` are external
  collaborators; they are carried as opaque fields of an environment record,
  so every theorem below holds for all of their behaviours.  Numbers are
  rationals (the float layout itself is not under study); complex values are
  pairs of rationals.

* `Pipeline.py` — `Process_Image` (its step loop) and `Process_List`
  (its sequential `starmap` branch), in the `Except` monad.

The radius-growth `while` loops are embedded as fuel-indexed recursions that
return `none` when fuel is exhausted; a termination theorem shows that an
explicit fuel value computed from the inputs suffices whenever the PSF width
is positive (for non-positive PSF width the Python loop itself need not
terminate).
-/

namespace AutoProf

/-! ## Small numeric helpers (models of numpy primitives) -/

/-- Sum of a list of complex values represented as pairs of rationals. -/
def csum (l : List (ℚ × ℚ)) : ℚ × ℚ :=
  ((l.map Prod.fst).sum, (l.map Prod.snd).sum)

/-- `np.mean` of a list of complex values. -/
def cmean (l : List (ℚ × ℚ)) : ℚ × ℚ :=
  ((l.map Prod.fst).sum / l.length, (l.map Prod.snd).sum / l.length)

/-- Complex multiplication on pairs of rationals. -/
def cmul (a b : ℚ × ℚ) : ℚ × ℚ :=
  (a.1 * b.1 - a.2 * b.2, a.1 * b.2 + a.2 * b.1)

/-- Complex division on pairs of rationals. -/
def cdiv (a b : ℚ × ℚ) : ℚ × ℚ :=
  ((a.1 * b.1 + a.2 * b.2) / (b.1 ^ 2 + b.2 ^ 2),
   (a.2 * b.1 - a.1 * b.2) / (b.1 ^ 2 + b.2 ^ 2))

/-- `np.linspace a b n`: `n` evenly spaced points from `a` to `b` inclusive. -/
def linspace (a b : ℚ) (n : ℕ) : List ℚ :=
  (List.range n).map (fun i : ℕ => a + (b - a) * (i : ℚ) / ((n : ℚ) - 1))

/-- Python's `x % p` on floats (floored modulus); for `0 < p` the result
lies in `[0, p)`. -/
def pmod (x p : ℚ) : ℚ := x - p * ⌊x / p⌋

/-- `np.median` of a list of rationals: middle order statistic, or the mean
of the two middle ones for even length. -/
def medianQ (l : List ℚ) : ℚ :=
  let s := List.insertionSort (· ≤ ·) l
  let n := l.length
  if n = 0 then 0
  else if n % 2 = 1 then s.getD (n / 2) 0
  else (s.getD (n / 2 - 1) 0 + s.getD (n / 2) 0) / 2

/-- Auxiliary accumulator for `argminIdx`: current index, best index, best
value.  Strict `<` on update matches `np.argmin` returning the first
occurrence of the minimum. -/
def argminAux : List ℚ → ℕ → ℕ → ℚ → ℕ
  | [], _, bi, _ => bi
  | v :: rest, i, bi, bv =>
    if v < bv then argminAux rest (i + 1) i v
    else argminAux rest (i + 1) bi bv

/-- `np.argmin`: index of the first minimal element (0 on the empty list). -/
def argminIdx : List ℚ → ℕ
  | [] => 0
  | v :: rest => argminAux rest 1 0 v

/-! ## The environment: inputs and external collaborators

`IMG`, `results['background']`, `results['background noise']`,
`results['psf fwhm']` and `results['center']` are the per-image inputs;
`iso_extract` stands for `_iso_extract(IMG - results['background'], R, e, p,
results['center'])` (the background-subtracted sampler), `fft l k` for the
`k`-th coefficient of `scipy.fftpack.fft`, `cabs`/`arg` for `np.abs`/`np.angle`
on complex values, `piQ` for the value of `np.pi`, `quantile` for
`np.quantile`, `minimize obj x0 simplex` for the Nelder-Mead
`scipy.optimize.minimize` call (returning `res.success` and `res.x[0]`),
`iqr1684` for `scipy.stats.iqr(·, rng = [16, 84])`, and `fitLoss` for
`_Fit_Isophotes_Loss` used by the grid-search initializer. -/
structure Env where
  rows : ℕ
  cols : ℕ
  background : ℚ
  noise : ℚ
  psf : ℚ
  center : ℚ × ℚ
  iso_extract : ℚ → ℚ → ℚ → List ℚ
  quantile : List ℚ → ℚ → ℚ
  fft : List ℚ → ℕ → ℚ × ℚ
  cabs : ℚ × ℚ → ℚ
  arg : ℚ × ℚ → ℚ
  piQ : ℚ
  x_to_eps : ℚ → ℚ
  inv_x_to_eps : ℚ → ℚ
  minimize : (ℚ → ℚ) → ℚ → List ℚ → Bool × ℚ
  iqr1684 : List ℚ → ℚ
  fitLoss : ℚ → ℚ → List ℚ → ℚ

/-- User keyword arguments (`**kwargs`).  In the two initializer functions
they are consulted only by the diagnostic-plotting blocks, which have no
influence on the returned record. -/
abbrev Kwargs := List (String × ℚ)

/-! ## Embedding of `Isophote_Initialize_CircFit` (lines 86-199) -/

/-- `np.clip(l, a_max = np.quantile(l, 0.85), a_min = None)`. -/
def clipQuant (env : Env) (l : List ℚ) : List ℚ :=
  l.map (fun v => min v (env.quantile l (17/20)))

/-- The radius grown at step `k`: the sequence starts at
`results['psf fwhm']/2` and multiplies by `1.2` each iteration. -/
def radius (env : Env) (k : ℕ) : ℚ := env.psf / 2 * (6/5) ^ k

/-- The circular isophote samples of the background-subtracted image at the
`k`-th grown radius (line 112). -/
def isovalsAt (env : Env) (k : ℕ) : List ℚ :=
  env.iso_extract (radius env k) 0 0

/-- The `j`-th FFT coefficient of the clipped samples at step `k` (line 113). -/
def coefAt (env : Env) (k j : ℕ) : ℚ × ℚ :=
  env.fft (clipQuant env (isovalsAt env k)) j

/-- Line 115: the 2nd-harmonic coefficient dominates the 1st and 3rd. -/
def dominant2 (env : Env) (k : ℕ) : Prop :=
  env.cabs (coefAt env k 1) < env.cabs (coefAt env k 2) ∧
  env.cabs (coefAt env k 3) < env.cabs (coefAt env k 2)

instance (env : Env) (k : ℕ) : Decidable (dominant2 env k) := by
  unfold dominant2; infer_instance

/-- Line 118: the noise-floor break condition as seen at step `k ≥ 1`
(when the break is tested, the radius list holds `k + 1` entries, so
`len(circ_ellipse_radii) > 4` is `4 ≤ k`). -/
def breakAt (env : Env) (k : ℕ) : Prop :=
  env.quantile (isovalsAt env k) (4/5) < 3 * env.noise ∧ 4 ≤ k

instance (env : Env) (k : ℕ) : Decidable (breakAt env k) := by
  unfold breakAt; infer_instance

/-- The loop performs its last iteration at step `k` exactly when the break
fires there or the next `while` test fails because the radius reached half
the image height (`len(IMG)/2`, line 110). -/
def stopAt (env : Env) (k : ℕ) : Prop :=
  (env.rows : ℚ) / 2 ≤ radius env k ∨ breakAt env k

instance (env : Env) (k : ℕ) : Decidable (stopAt env k) := by
  unfold stopAt; infer_instance

/-- Mutable state of the radius-growth loop (lines 105-119): current radius,
the list `circ_ellipse_radii`, and the accumulators `allphase`, `phasekeep`. -/
structure GrowState where
  cur : ℚ
  radii : List ℚ
  allphase : List (ℚ × ℚ)
  phasekeep : List (ℚ × ℚ)
deriving DecidableEq

/-- State before the loop: `circ_ellipse_radii = [results['psf fwhm']/2]`. -/
def initState (env : Env) : GrowState :=
  ⟨env.psf / 2, [env.psf / 2], [], []⟩

/-- One iteration of the loop body (lines 111-116): append the grown radius,
sample, record the 2nd-harmonic coefficient, and keep it when it dominates
the 1st and 3rd harmonics. -/
def growStep (env : Env) (s : GrowState) : GrowState :=
  let r := s.cur * (6/5)
  let iso := env.iso_extract r 0 0
  let c := clipQuant env iso
  { cur := r
    radii := s.radii ++ [r]
    allphase := s.allphase ++ [env.fft c 2]
    phasekeep :=
      if env.cabs (env.fft c 1) < env.cabs (env.fft c 2) ∧
         env.cabs (env.fft c 3) < env.cabs (env.fft c 2)
      then s.phasekeep ++ [env.fft c 2] else s.phasekeep }

/-- Line 118 on the post-append state. -/
def breakTest (env : Env) (s : GrowState) : Prop :=
  env.quantile (env.iso_extract s.cur 0 0) (4/5) < 3 * env.noise ∧
  4 < s.radii.length

instance (env : Env) (s : GrowState) : Decidable (breakTest env s) := by
  unfold breakTest; infer_instance

/-- The `while` loop of lines 110-119, indexed by fuel; `none` means the
fuel ran out before the loop stopped. -/
def growLoop (env : Env) : ℕ → GrowState → Option GrowState
  | 0, _ => none
  | fuel + 1, s =>
    if s.cur < (env.rows : ℚ) / 2 then
      let t := growStep env s
      if breakTest env t then some t else growLoop env fuel t
    else some s

/-- Fuel that always suffices when `0 < psf fwhm` (proved below): one unit
per geometric-growth step needed to pass half the image height, plus slack. -/
def defaultFuel (env : Env) : ℕ :=
  (⌈5 * ((env.rows : ℚ) / 2) / (env.psf / 2)⌉).toNat + 2

/-- Closed form of the loop state after `K` completed iterations:
`circ_ellipse_radii` is the geometric sequence, `allphase` holds the
2nd-harmonic coefficients of steps `1..K`, and `phasekeep` its sublist at
the steps whose 2nd harmonic dominates the 1st and 3rd. -/
def stateAt (env : Env) (K : ℕ) : GrowState :=
  { cur := radius env K
    radii := (List.range (K + 1)).map (radius env)
    allphase := (List.range K).map (fun i => coefAt env (i + 1) 2)
    phasekeep := ((List.range K).filter (fun i => decide (dominant2 env (i + 1)))).map
      (fun i => coefAt env (i + 1) 2) }

@[simp] lemma stateAt_cur (env : Env) (K : ℕ) : (stateAt env K).cur = radius env K := rfl

@[simp] lemma stateAt_radii_length (env : Env) (K : ℕ) :
    (stateAt env K).radii.length = K + 1 := by
  simp [stateAt]

/-! ## Embedding of `_CircfitEllip_loss` (lines 81-84) and the remainder of
`Isophote_Initialize_CircFit` -/

/-- `_CircfitEllip_loss(e, dat, r, p, c, n)`: magnitude of the clipped
samples' 2nd FFT coefficient, normalised by sample count and median flux. -/
def CircfitEllip_loss (env : Env) (e r p n : ℚ) : ℚ :=
  let isovals := env.iso_extract r e p
  env.cabs (env.fft (clipQuant env isovals) 2) /
    ((isovals.length : ℚ) * (|medianQ isovals| + n))

/-- `np.linspace(0.8, 1.2, 5)` (lines 130 and 132). -/
def scaleFactors : List ℚ := linspace (4/5) (6/5) 5

/-- `test_ellip = np.linspace(0.05, 0.95, 15)` (line 127). -/
def testEllipGrid : List ℚ := linspace (1/20) (19/20) 15

/-- The loss summed over the five radii scaled `×0.8 – ×1.2` around `r`
(lines 130 and 132). -/
def sumLoss (env : Env) (r p e : ℚ) : ℚ :=
  (scaleFactors.map (fun m => CircfitEllip_loss env e (r * m) p env.noise)).sum

/-- `test_f2`: the summed loss at each candidate ellipticity (lines 128-130). -/
def gridF2 (env : Env) (r p : ℚ) : List ℚ :=
  testEllipGrid.map (fun e => sumLoss env r p e)

/-- `ellip = test_ellip[np.argmin(test_f2)]` (line 131). -/
def ellipGrid (env : Env) (r p : ℚ) : ℚ :=
  testEllipGrid.getD (argminIdx (gridF2 env r p)) 0

/-- The Nelder-Mead refinement call of lines 132-135: objective in the
transformed ellipticity variable, seeded at `_inv_x_to_eps(ellip)` with
initial simplex `[x0 - 1/15, x0 + 1/15]`. -/
def refineRes (env : Env) (r p e0 : ℚ) : Bool × ℚ :=
  env.minimize (fun x => sumLoss env r p (env.x_to_eps x))
    (env.inv_x_to_eps e0)
    [env.inv_x_to_eps e0 - 1/15, env.inv_x_to_eps e0 + 1/15]

/-- Lines 121-124: the global position angle from the phase accumulators:
angle of the mean of the last five kept coefficients when at least five
qualify, otherwise of the outer half of all recorded coefficients; negated,
halved, and reduced mod π. -/
def phaseOf (env : Env) (s : GrowState) : ℚ :=
  if 5 ≤ s.phasekeep.length then
    pmod (-(env.arg (cmean (s.phasekeep.drop (s.phasekeep.length - 5)))) / 2) env.piQ
  else
    pmod (-(env.arg (cmean (s.allphase.drop (s.allphase.length / 2)))) / 2) env.piQ

/-- `RR = np.linspace(r - psf, r + psf, 10)` (line 142). -/
def errRR (env : Env) (r : ℚ) : List ℚ :=
  linspace (r - env.psf) (r + env.psf) 10

/-- `errallphase` (lines 143-147): 2nd FFT coefficients of the clipped
circular samples at the ten error radii. -/
def errallphase (env : Env) (r : ℚ) : List (ℚ × ℚ) :=
  (errRR env r).map (fun rr => env.fft (clipQuant env (env.iso_extract rr 0 0)) 2)

/-- `sample_pas` (line 148): `(-np.angle(1j * c / np.mean(errallphase)) / 2) % np.pi`. -/
def samplePAs (env : Env) (r : ℚ) : List ℚ :=
  (errallphase env r).map
    (fun c => pmod (-(env.arg (cmul (0, 1) (cdiv c (cmean (errallphase env r))))) / 2) env.piQ)

/-- The per-radius Nelder-Mead call of lines 150-152 (single-radius loss). -/
def singleMin (env : Env) (e0 r p : ℚ) : Bool × ℚ :=
  env.minimize (fun x => CircfitEllip_loss env (env.x_to_eps x) r p env.noise)
    (env.inv_x_to_eps e0)
    [env.inv_x_to_eps e0 - 1/15, env.inv_x_to_eps e0 + 1/15]

/-- The ellipticity resamples of line 153. -/
def sampleEllips (env : Env) (r e0 : ℚ) : List ℚ :=
  ((errRR env r).zip (samplePAs env r)).map
    (fun rp => env.x_to_eps (singleMin env e0 rp.1 rp.2).2)

/-- The output record of `Isophote_Initialize_CircFit` (line 199). -/
structure InitRecord where
  init_ellip : ℚ
  init_ellip_err : ℚ
  init_pa : ℚ
  init_pa_err : ℚ
  init_R : ℚ
deriving DecidableEq

/-- Lines 121-153 and 199, given the final loop state: position angle, grid
plus refined ellipticity (refinement kept exactly when `res.success`), error
bars as `iqr(·, rng=[16,84]) / 2`, and `init R = circ_ellipse_radii[-2]`. -/
def circRecord (env : Env) (s : GrowState) : InitRecord :=
  let phase := phaseOf env s
  let refR := s.radii.getD (s.radii.length - 2) 0
  let e0 := ellipGrid env refR phase
  let res := refineRes env refR phase e0
  let ellip := if res.1 then env.x_to_eps res.2 else e0
  { init_ellip := ellip
    init_ellip_err := env.iqr1684 (sampleEllips env refR ellip) / 2
    init_pa := phase
    init_pa_err := env.iqr1684 (samplePAs env refR) / 2
    init_R := refR }

/-- `Isophote_Initialize_CircFit`.  `none` models non-return: either the
loop never stopped within the fuel, or `circ_ellipse_radii[-2]` raised an
`IndexError` because fewer than two radii were grown. -/
def CircFit (env : Env) (kw : Kwargs) : Option InitRecord :=
  match growLoop env (defaultFuel env) (initState env) with
  | none => none
  | some s => if 2 ≤ s.radii.length then some (circRecord env s) else none

/-! ## Embedding of `Isophote_Initialize_GridSearch` (lines 17-79) -/

/-- The radius-growth loop of lines 33-38: start at `psf fwhm`, grow by
`×1.3`, stop at half the image height or when the 0.6 quantile of the
samples drops below three times the background noise after more than four
radii. -/
def growLoopGS (env : Env) : ℕ → List ℚ → ℚ → Option (List ℚ)
  | 0, _, _ => none
  | fuel + 1, radii, cur =>
    if cur < (env.rows : ℚ) / 2 then
      let r := cur * (13/10)
      if env.quantile (env.iso_extract r 0 0) (3/5) < 3 * env.noise ∧
         4 < (radii ++ [r]).length
      then some (radii ++ [r])
      else growLoopGS env fuel (radii ++ [r]) r
    else some radii

/-- Fuel for the grid-search growth loop (sufficient for positive PSF). -/
def fuelGS (env : Env) : ℕ :=
  (⌈10 * ((env.rows : ℚ) / 2) / (3 * env.psf)⌉).toNat + 2

/-- Lines 48-52: the `N_e × N_pa = 10 × 20` grid of transformed-ellipticity
and position-angle candidates. -/
def gsInits (env : Env) : List (ℚ × ℚ) :=
  (linspace (env.inv_x_to_eps (1/5)) (env.inv_x_to_eps (4/5)) 10).flatMap
    (fun e => (linspace 0 (19 * env.piQ / 20) 20).map (fun p => (e, p)))

/-- Lines 55-69: pick the first grid point attaining the minimal loss. -/
def gsBest (env : Env) (radii : List ℚ) : ℚ × ℚ :=
  (gsInits env).getD (argminIdx ((gsInits env).map (fun ep => env.fitLoss ep.1 ep.2 radii))) (0, 0)

/-- The output record of `Isophote_Initialize_GridSearch` (line 79). -/
structure GridRecord where
  init_ellip : ℚ
  init_pa : ℚ
deriving DecidableEq

/-- `Isophote_Initialize_GridSearch`. -/
def GridSearch (env : Env) (kw : Kwargs) : Option GridRecord :=
  match growLoopGS env (fuelGS env) [env.psf] env.psf with
  | none => none
  | some radii => some ⟨(gsBest env radii).1, (gsBest env radii).2⟩

/-! ## Embedding of `Pipeline.py`: `Process_Image` and `Process_List`

Image data and stage outputs are abstracted to naturals; `runStep name dat
results` models `pipeline_functions[name](dat, pixscale, name, results,
**kwargs)`, which may raise (`Except.error`).  Errors carry a numeric code.
`Process_List`'s sequential branch (`n_procs <= 1`, line 213) is a
`starmap`, i.e. a monadic map over the image list. -/
structure PipeEnv where
  readImage : String → Option ℕ
  corrupt : ℕ → Bool
  runStep : String → ℕ → List (String × ℕ) → Except ℕ ℕ
  writeProf : List (String × ℕ) → Except ℕ Unit

/-- `self.pipeline_steps` as set by `Isophote_Pipeline.__init__` (line 43). -/
def defaultSteps : List String :=
  ["background", "psf", "center", "isophoteinit", "isophotefit",
   "starmask", "isophoteextract", "checkfit"]

/-- The step loop of lines 149-151: each stage receives the accumulated
`results` of the earlier stages; exceptions propagate (the `try`/`except`
around this loop is commented out in the source). -/
def runSteps (env : PipeEnv) (dat : ℕ) :
    List String → List (String × ℕ) → Except ℕ (List (String × ℕ))
  | [], acc => .ok acc
  | st :: rest, acc =>
    match env.runStep st dat acc with
    | .error e => .error e
    | .ok o => runSteps env dat rest (acc ++ [(st, o)])

/-- `Process_Image` (lines 110-161): returns `.ok 1` on missing or corrupted
data, otherwise runs the steps and `WriteProf`, returning `.ok 0`; any
exception inside a stage propagates out as `.error`. -/
def ProcessImage (env : PipeEnv) (steps : List String) (img : String) : Except ℕ ℕ :=
  match env.readImage img with
  | none => .ok 1
  | some dat =>
    if env.corrupt dat then .ok 1
    else
      match runSteps env dat steps [] with
      | .error e => .error e
      | .ok results =>
        match env.writeProf results with
        | .error e => .error e
        | .ok _ => .ok 0

/-- `Process_List`'s sequential branch (line 213): `starmap` of
`Process_Image` over the batch; an exception from one image aborts the map. -/
def ProcessList (env : PipeEnv) (steps : List String) (imgs : List String) :
    Except ℕ (List ℕ) :=
  imgs.mapM (ProcessImage env steps)

/-- Modelled from the spec: `Process_Image` with the per-image exception
handler that lines 147 and 152-154 of `Pipeline.py` keep commented out — a
stage exception is caught, logged, and turned into the per-image failure
code `1` (the isolation behaviour sections 5 and 7 of the spec require). -/
def ProcessImage_spec (env : PipeEnv) (steps : List String) (img : String) : Except ℕ ℕ :=
  match env.readImage img with
  | none => .ok 1
  | some dat =>
    if env.corrupt dat then .ok 1
    else
      match runSteps env dat steps [] with
      | .error _ => .ok 1
      | .ok results =>
        match env.writeProf results with
        | .error e => .error e
        | .ok _ => .ok 0

/-- Modelled from the spec: `Process_List` over the spec-intended
`Process_Image`, returning one success/fail code per input image. -/
def ProcessList_spec (env : PipeEnv) (steps : List String) (imgs : List String) :
    Except ℕ (List ℕ) :=
  imgs.mapM (ProcessImage_spec env steps)

/-- The `results` accumulator as it stands when stage `i` is about to run
(`none` when an earlier stage already raised or `i` is out of range). -/
def accAt (env : PipeEnv) (dat : ℕ) (steps : List String) : ℕ → Option (List (String × ℕ))
  | 0 => some []
  | i + 1 =>
    match accAt env dat steps i with
    | none => none
    | some acc =>
      match steps.get? i with
      | none => none
      | some st =>
        match env.runStep st dat acc with
        | .error _ => none
        | .ok o => some (acc ++ [(st, o)])

/-! ## Loop-correspondence lemmas for the `CircFit` growth loop -/

lemma radius_succ (env : Env) (k : ℕ) :
    radius env k * (6/5) = radius env (k + 1) := by
  unfold radius; ring

lemma radius_pos (env : Env) (h : 0 < env.psf) (k : ℕ) : 0 < radius env k := by
  unfold radius; positivity

/-- One loop body starting from the closed-form state lands in the
closed-form state of the next step. -/
lemma growStep_stateAt (env : Env) (k : ℕ) :
    growStep env (stateAt env k) = stateAt env (k + 1) := by
  have hr : radius env k * (6/5) = radius env (k + 1) := radius_succ env k
  unfold growStep stateAt
  simp only [hr, GrowState.mk.injEq]
  refine ⟨trivial, ?_, ?_, ?_⟩
  · rw [List.range_succ (n := k + 1)]
    simp
  · rw [List.range_succ (n := k)]
    simp [coefAt, isovalsAt]
  · rw [List.range_succ (n := k)]
    by_cases hd : dominant2 env (k + 1)
    · have hd' := hd
      unfold dominant2 coefAt isovalsAt at hd'
      simp [List.filter_append, hd, hd'.1, hd'.2, coefAt, isovalsAt]
    · have hd' := hd
      unfold dominant2 coefAt isovalsAt at hd'
      rw [not_and_or] at hd'
      rcases hd' with hd' | hd' <;>
        simp [List.filter_append, hd, not_lt.mp hd', coefAt, isovalsAt]

lemma breakTest_stateAt (env : Env) (k : ℕ) :
    breakTest env (stateAt env k) ↔ breakAt env k := by
  unfold breakTest breakAt isovalsAt
  simp only [stateAt_cur, stateAt_radii_length]
  exact and_congr_right (fun _ => by omega)

/-- If `K` is the first stopping step, the loop run from the closed-form
state of any earlier step `k` with enough fuel returns the closed-form state
of step `K`. -/
lemma growLoop_reach (env : Env) (K : ℕ) (hK : stopAt env K)
    (hmin : ∀ j, j < K → ¬ stopAt env j) :
    ∀ f k, k ≤ K → (k = K → (env.rows : ℚ) / 2 ≤ radius env K) →
      K + 1 ≤ k + f →
      growLoop env f (stateAt env k) = some (stateAt env K) := by
  intro f
  induction f with
  | zero => intro k hk _ hf; omega
  | succ f ih =>
    intro k hk hedge hf
    rcases eq_or_lt_of_le hk with rfl | hklt
    · have hH : (env.rows : ℚ) / 2 ≤ radius env k := hedge rfl
      simp only [growLoop, stateAt_cur]
      rw [if_neg (not_lt.mpr hH)]
    · have hns : ¬ stopAt env k := hmin k hklt
      have hw : radius env k < (env.rows : ℚ) / 2 := by
        by_contra hcon
        exact hns (Or.inl (not_lt.mp hcon))
      simp only [growLoop, stateAt_cur]
      rw [if_pos hw, growStep_stateAt]
      by_cases hb : breakTest env (stateAt env (k + 1))
      · have hbk : breakAt env (k + 1) := (breakTest_stateAt env (k + 1)).mp hb
        have hk1 : k + 1 = K := by
          rcases Nat.lt_or_ge (k + 1) K with h1 | h1
          · exact absurd (Or.inr hbk) (hmin _ h1)
          · omega
        rw [if_pos hb, hk1]
      · rw [if_neg hb]
        rcases Nat.lt_or_ge (k + 1) K with h1 | h1
        · exact ih (k + 1) (le_of_lt h1) (fun hc => absurd hc (Nat.ne_of_lt h1)) (by omega)
        · have hk1 : k + 1 = K := by omega
          have hH : (env.rows : ℚ) / 2 ≤ radius env K := by
            rcases hK with hH | hbk
            · exact hH
            · exact absurd ((breakTest_stateAt env (k + 1)).mpr (hk1 ▸ hbk)) hb
          exact ih (k + 1) (le_of_eq hk1) (fun _ => hH) (by omega)

/-- For positive PSF width, the radius at the step computed by
`defaultFuel` has passed half the image height (Bernoulli bound on the
geometric growth). -/
lemma radius_reaches (env : Env) (h : 0 < env.psf)
    (hlt : env.psf / 2 < (env.rows : ℚ) / 2) :
    (env.rows : ℚ) / 2 ≤
      radius env (⌈5 * ((env.rows : ℚ) / 2) / (env.psf / 2)⌉).toNat := by
  have hr0 : 0 < env.psf / 2 := by positivity
  have hH : 0 < (env.rows : ℚ) / 2 := lt_trans hr0 hlt
  have hq : (0 : ℚ) < 5 * ((env.rows : ℚ) / 2) / (env.psf / 2) := by positivity
  have hcpos : (0 : ℤ) < ⌈5 * ((env.rows : ℚ) / 2) / (env.psf / 2)⌉ := Int.ceil_pos.mpr hq
  set k : ℕ := (⌈5 * ((env.rows : ℚ) / 2) / (env.psf / 2)⌉).toNat with hk
  have h2 : ((k : ℕ) : ℚ) = ((⌈5 * ((env.rows : ℚ) / 2) / (env.psf / 2)⌉ : ℤ) : ℚ) := by
    rw [hk]
    exact_mod_cast congrArg (fun z : ℤ => (z : ℚ))
      (Int.toNat_of_nonneg (le_of_lt hcpos))
  have hcast : 5 * ((env.rows : ℚ) / 2) / (env.psf / 2) ≤ (k : ℚ) := by
    rw [h2]; exact Int.le_ceil _
  have hbern : (1 : ℚ) + k * (1/5) ≤ (1 + 1/5) ^ k := by
    have := one_add_mul_le_pow (a := (1/5 : ℚ)) (by norm_num) k
    linarith [this]
  have h65 : ((6:ℚ)/5) ^ k = (1 + 1/5) ^ k := by norm_num
  have hstep1 : env.psf / 2 * ((1 : ℚ) + k * (1/5)) ≤ env.psf / 2 * ((6:ℚ)/5) ^ k := by
    rw [h65]
    exact mul_le_mul_of_nonneg_left hbern (le_of_lt hr0)
  have hstep2 : (env.rows : ℚ) / 2 ≤ env.psf / 2 * ((1 : ℚ) + k * (1/5)) := by
    have hdiv : 5 * ((env.rows : ℚ) / 2) / (env.psf / 2) =
        5 * (((env.rows : ℚ) / 2) / (env.psf / 2)) := by ring
    have hge : ((env.rows : ℚ) / 2) / (env.psf / 2) ≤ (k : ℚ) / 5 := by
      rw [hdiv] at hcast; linarith
    have hmul := mul_le_mul_of_nonneg_left hge (le_of_lt hr0)
    have hcancel : env.psf / 2 * (((env.rows : ℚ) / 2) / (env.psf / 2)) =
        (env.rows : ℚ) / 2 := by
      field_simp
      ring
    nlinarith [hmul, hcancel, hr0]
  calc (env.rows : ℚ) / 2 ≤ env.psf / 2 * ((1 : ℚ) + k * (1/5)) := hstep2
    _ ≤ env.psf / 2 * ((6:ℚ)/5) ^ k := hstep1
    _ = radius env k := by rw [radius]

/-- For positive PSF width the stop condition is eventually reached: the
geometric radius growth passes half the image height. -/
lemma exists_stop (env : Env) (h : 0 < env.psf) : ∃ k, stopAt env k := by
  rcases le_or_lt ((env.rows : ℚ) / 2) (env.psf / 2) with hle | hlt
  · exact ⟨0, Or.inl (by simpa [radius] using hle)⟩
  · exact ⟨_, Or.inl (radius_reaches env h hlt)⟩

/-- Main loop theorem: for positive PSF width the growth loop run with the
default fuel stops, and its final state is the closed-form state of the
first step satisfying the stop condition. -/
lemma growLoop_main (env : Env) (h : 0 < env.psf) :
    ∃ K, stopAt env K ∧ (∀ j, j < K → ¬ stopAt env j) ∧
      growLoop env (defaultFuel env) (initState env) = some (stateAt env K) := by
  have hex := exists_stop env h
  refine ⟨Nat.find hex, Nat.find_spec hex, fun j hj => Nat.find_min hex hj, ?_⟩
  have h0 : initState env = stateAt env 0 := by
    simp [initState, stateAt, radius, List.range_succ]
  rw [h0]
  have hKle : Nat.find hex ≤ (⌈5 * ((env.rows : ℚ) / 2) / (env.psf / 2)⌉).toNat := by
    rcases le_or_lt ((env.rows : ℚ) / 2) (env.psf / 2) with hle | hlt
    · have h0 : stopAt env 0 := Or.inl (by simpa [radius] using hle)
      have := Nat.find_min' hex h0
      omega
    · exact Nat.find_min' hex (Or.inl (radius_reaches env h hlt))
  refine growLoop_reach env (Nat.find hex) (Nat.find_spec hex)
    (fun j hj => Nat.find_min hex hj) (defaultFuel env) 0 (Nat.zero_le _) ?_ ?_
  · intro h0K
    rcases Nat.find_spec hex with hH | hbk
    · exact h0K ▸ hH
    · rw [← h0K] at hbk
      exact absurd hbk.2 (by omega)
  · unfold defaultFuel
    omega

/-! ## Supporting lemmas: modulus range, linspace shape, argmin invariance -/

lemma pmod_eq_mul_fract (x p : ℚ) (hp : p ≠ 0) :
    pmod x p = p * Int.fract (x / p) := by
  unfold pmod Int.fract
  field_simp

lemma pmod_nonneg (x p : ℚ) (hp : 0 < p) : 0 ≤ pmod x p := by
  rw [pmod_eq_mul_fract x p (ne_of_gt hp)]
  exact mul_nonneg (le_of_lt hp) (Int.fract_nonneg _)

lemma pmod_lt (x p : ℚ) (hp : 0 < p) : pmod x p < p := by
  rw [pmod_eq_mul_fract x p (ne_of_gt hp)]
  calc p * Int.fract (x / p) < p * 1 :=
        mul_lt_mul_of_pos_left (Int.fract_lt_one _) hp
    _ = p := mul_one p

@[simp] lemma linspace_length (a b : ℚ) (n : ℕ) : (linspace a b n).length = n := by
  simp [linspace]

lemma linspace_head (a b : ℚ) (n : ℕ) (hn : 0 < n) :
    (linspace a b n).head? = some a := by
  obtain ⟨m, rfl⟩ := Nat.exists_eq_succ_of_ne_zero (Nat.pos_iff_ne_zero.mp hn)
  rw [linspace, List.range_succ_eq_map]
  simp

lemma linspace_getD (a b : ℚ) (n i : ℕ) (hi : i < n) :
    (linspace a b n).getD i 0 = a + (b - a) * i / ((n : ℚ) - 1) := by
  rw [linspace, List.getD_eq_getElem?_getD, List.getElem?_map, List.getElem?_range hi]
  rfl

lemma linspace_getLast (a b : ℚ) (n : ℕ) (hn : 2 ≤ n) :
    (linspace a b n).getLast? = some b := by
  rw [List.getLast?_eq_getElem?, linspace_length]
  rw [linspace, List.getElem?_map, List.getElem?_range (by omega : n - 1 < n)]
  have hcast : ((n - 1 : ℕ) : ℚ) = (n : ℚ) - 1 := by
    have h1 : (1 : ℕ) ≤ n := by omega
    push_cast [Nat.cast_sub h1]
    ring
  have hne1 : ((n : ℚ) - 1) ≠ 0 := by
    have h2 : (2 : ℚ) ≤ (n : ℚ) := by exact_mod_cast hn
    linarith
  simp only [Option.map_some']
  congr 1
  rw [hcast]
  field_simp

/-- `Chain'` over a function sampled on `range n`, from the pointwise
consecutive relation. -/
lemma chain_map_range {R : ℚ → ℚ → Prop} :
    ∀ (n : ℕ) (f : ℕ → ℚ), (∀ i, R (f i) (f (i + 1))) →
      List.Chain' R ((List.range n).map f) := by
  intro n
  induction n with
  | zero => intro f _; simp
  | succ m ih =>
    intro f h
    rw [List.range_succ_eq_map, List.map_cons, List.map_map]
    have hmap : (f ∘ Nat.succ) = fun i => f (i + 1) := by
      funext i
      simp [Function.comp, Nat.succ_eq_add_one]
    rw [hmap]
    refine List.chain'_cons'.mpr ⟨?_, ih (fun i => f (i + 1)) (fun i => h (i + 1))⟩
    intro y hy
    rcases m with _ | m0
    · simp at hy
    · rw [List.range_succ_eq_map, List.map_cons, List.head?_cons] at hy
      obtain rfl : f (0 + 1) = y := by injection hy
      exact h 0

lemma linspace_chain (a b : ℚ) (n : ℕ) :
    List.Chain' (fun x y => y - x = (b - a) / ((n : ℚ) - 1)) (linspace a b n) := by
  unfold linspace
  refine chain_map_range n _ (fun i => ?_)
  push_cast
  ring

lemma getD_map_range (f : ℕ → ℚ) (n i : ℕ) (hi : i < n) :
    (((List.range n).map f).getD i 0) = f i := by
  rw [List.getD_eq_getElem?_getD, List.getElem?_map, List.getElem?_range hi]
  rfl

/-- `argminAux` is invariant under composing all values with a strictly
monotone transform. -/
lemma argminAux_map (g : ℚ → ℚ) (hg : ∀ a b, g a < g b ↔ a < b) :
    ∀ (l : List ℚ) (i bi : ℕ) (bv : ℚ),
      argminAux (l.map g) i bi (g bv) = argminAux l i bi bv := by
  intro l
  induction l with
  | nil => intro i bi bv; rfl
  | cons v rest ih =>
    intro i bi bv
    by_cases hlt : v < bv
    · simp only [List.map_cons, argminAux, if_pos ((hg v bv).mpr hlt), if_pos hlt]
      exact ih (i + 1) i v
    · simp only [List.map_cons, argminAux,
        if_neg (fun hc => hlt ((hg v bv).mp hc)), if_neg hlt]
      exact ih (i + 1) bi bv

lemma argminIdx_map (g : ℚ → ℚ) (hg : ∀ a b, g a < g b ↔ a < b) (l : List ℚ) :
    argminIdx (l.map g) = argminIdx l := by
  cases l with
  | nil => rfl
  | cons v rest =>
    simp only [List.map_cons, argminIdx]
    exact argminAux_map g hg rest 1 0 v

lemma argminIdx_div_five (l : List ℚ) :
    argminIdx (l.map (fun v => v / 5)) = argminIdx l := by
  refine argminIdx_map _ (fun a b => ?_) l
  constructor
  · intro hlt; nlinarith
  · intro hlt; nlinarith

/-! ## Generic facts about the growth loop results -/

@[simp] lemma growStep_radii_length (env : Env) (s : GrowState) :
    (growStep env s).radii.length = s.radii.length + 1 := by
  simp [growStep]

/-- The radius list never shrinks along the loop. -/
lemma growLoop_length_mono (env : Env) :
    ∀ f s t, growLoop env f s = some t → s.radii.length ≤ t.radii.length := by
  intro f
  induction f with
  | zero => intro s t h; simp [growLoop] at h
  | succ f ih =>
    intro s t h
    rw [growLoop] at h
    by_cases hw : s.cur < (env.rows : ℚ) / 2
    · rw [if_pos hw] at h
      by_cases hb : breakTest env (growStep env s)
      · rw [if_pos hb] at h
        cases h
        simp
      · rw [if_neg hb] at h
        have := ih (growStep env s) t h
        simp at this
        omega
    · rw [if_neg hw] at h
      cases h
      exact le_refl _

/-- Unfolding `CircFit` when the loop output and the radii-length guard are
known. -/
lemma CircFit_eq_some (env : Env) (kw : Kwargs) (s : GrowState)
    (hl : growLoop env (defaultFuel env) (initState env) = some s)
    (h2 : 2 ≤ s.radii.length) :
    CircFit env kw = some (circRecord env s) := by
  rw [CircFit, hl]
  simp [h2]

/-! ## Pipeline lemmas -/

/-- The `results` dictionary a stage sees holds exactly the outputs of the
stages that ran before it, in order. -/
lemma accAt_fst (env : PipeEnv) (dat : ℕ) (steps : List String) :
    ∀ i acc, accAt env dat steps i = some acc →
      acc.map Prod.fst = steps.take i := by
  intro i
  induction i with
  | zero =>
    intro acc h
    simp [accAt] at h
    simp [← h]
  | succ i ih =>
    intro acc h
    rw [accAt] at h
    cases hprev : accAt env dat steps i with
    | none => rw [hprev] at h; simp at h
    | some acc0 =>
      rw [hprev] at h
      dsimp only at h
      cases hst : steps.get? i with
      | none => rw [hst] at h; simp at h
      | some st =>
        rw [hst] at h
        dsimp only at h
        cases hrun : env.runStep st dat acc0 with
        | error e => rw [hrun] at h; simp at h
        | ok o =>
          rw [hrun] at h
          simp only [Option.some.injEq] at h
          have hacc : acc = acc0 ++ [(st, o)] := h.symm
          rw [hacc, List.map_append, ih acc0 hprev, List.take_succ]
          simp [← List.get?_eq_getElem?, hst]

lemma sum_map_twenty (l : List ℚ) :
    (l.map (fun _ => (20 : ℕ))).sum = 20 * l.length := by
  induction l with
  | nil => simp
  | cons v rest ih => simp [ih]; ring

lemma gsInits_length (env : Env) : (gsInits env).length = 200 := by
  rw [gsInits, List.length_flatMap]
  simp only [Function.comp_def, List.length_map, linspace_length]
  rw [sum_map_twenty, linspace_length]

/-! ## Concrete environments for witnesses and counterexamples -/

/-- A small square image: 4 rows, 4 columns, PSF width 2, unit noise; the
sampler returns no pixels and the sampled quantile is large so the
noise-floor break never fires.  The loop thus stops at half the image
height. -/
def envW : Env :=
  { rows := 4
    cols := 4
    background := 0
    noise := 1
    psf := 2
    center := (2, 2)
    iso_extract := fun _ _ _ => []
    quantile := fun _ _ => 100
    fft := fun _ _ => (0, 0)
    cabs := fun _ => 0
    arg := fun _ => 0
    piQ := 3
    x_to_eps := fun x => x
    inv_x_to_eps := fun x => x
    minimize := fun _ x0 _ => (true, x0)
    iqr1684 := fun _ => 0
    fitLoss := fun _ _ _ => 0 }

/-- A strongly non-square image: 40 rows but only 2 columns, PSF width 2,
noise-floor break never fires. -/
def envC1 : Env :=
  { rows := 40
    cols := 2
    background := 0
    noise := 1
    psf := 2
    center := (1, 20)
    iso_extract := fun _ _ _ => []
    quantile := fun _ _ => 100
    fft := fun _ _ => (0, 0)
    cabs := fun _ => 0
    arg := fun _ => 0
    piQ := 3
    x_to_eps := fun x => x
    inv_x_to_eps := fun x => x
    minimize := fun _ x0 _ => (true, x0)
    iqr1684 := fun _ => 0
    fitLoss := fun _ _ _ => 0 }

/-- An image smaller than the PSF: 2 rows, PSF width 4, so the starting
radius `psf/2 = 2` already exceeds half the image height. -/
def envN : Env :=
  { rows := 2
    cols := 2
    background := 0
    noise := 1
    psf := 4
    center := (1, 1)
    iso_extract := fun _ _ _ => []
    quantile := fun _ _ => 100
    fft := fun _ _ => (0, 0)
    cabs := fun _ => 0
    arg := fun _ => 0
    piQ := 3
    x_to_eps := fun x => x
    inv_x_to_eps := fun x => x
    minimize := fun _ x0 _ => (true, x0)
    iqr1684 := fun _ => 0
    fitLoss := fun _ _ _ => 0 }

/-- A pipeline environment in which image `"a"` (data `0`) raises in the
`"psf"` stage while image `"b"` (data `1`) processes cleanly. -/
def envP : PipeEnv :=
  { readImage := fun img => if img = "a" then some 0 else some 1
    corrupt := fun _ => false
    runStep := fun st dat _ => if dat = 0 ∧ st = "psf" then .error 7 else .ok 0
    writeProf := fun _ => .ok () }

/-! ## Claim-side definitions (formalizations that follow the claims'
wording, for the counterexamples) -/

/-- Follows claim C1's wording: the stop bound read as half the image
*width* (number of columns) instead of `len(IMG)/2`. -/
def stopAtW (env : Env) (k : ℕ) : Prop :=
  (env.cols : ℚ) / 2 ≤ radius env k ∨ breakAt env k

instance (env : Env) (k : ℕ) : Decidable (stopAtW env k) := by
  unfold stopAtW; infer_instance

/-- Follows claim C1's wording: the growth loop stops exactly at the first
step where the noise-floor rule fires or the radius reaches half the image
width. -/
def claimedC1Stop (env : Env) : Prop :=
  ∃ K, growLoop env (defaultFuel env) (initState env) = some (stateAt env K) ∧
    stopAtW env K ∧ ∀ j, j < K → ¬ stopAtW env j

/-- Follows claim C5's wording: growth stops once the radius reaches half
the image *width*, i.e. every grown radius except possibly the last is
below half the image width. -/
def claimedC5WidthStop (env : Env) : Prop :=
  ∀ s, growLoop env (defaultFuel env) (initState env) = some s →
    ∀ r ∈ s.radii.dropLast, r < (env.cols : ℚ) / 2

/-- Follows claim C8's wording: some per-run keyword-argument value changes
the behaviour of an initializer function. -/
def claimedC8Override : Prop :=
  ∃ kw : Kwargs, CircFit envW kw ≠ CircFit envW [] ∨ GridSearch envW kw ≠ GridSearch envW []

/-- The stage names used in theorem statements (the extractor and checker
entries of `pipeline_steps`). -/
def extractStep : String := "isophoteextract"

def checkfitStep : String := "checkfit"

/-- The two-image batch used for the pipeline failure analysis. -/
def imgsP : List String := ["a", "b"]

/-! ## Further helper lemmas used by the claim theorems -/

@[simp] lemma stateAt_radii (env : Env) (K : ℕ) :
    (stateAt env K).radii = (List.range (K + 1)).map (radius env) := rfl

@[simp] lemma initState_cur (env : Env) : (initState env).cur = env.psf / 2 := rfl

@[simp] lemma initState_radii_length (env : Env) : (initState env).radii.length = 1 := rfl

lemma dropLast_map_range (f : ℕ → ℚ) (n : ℕ) :
    ((List.range (n + 1)).map f).dropLast = (List.range n).map f := by
  rw [List.range_succ, List.map_append]
  simp

/-- `circ_ellipse_radii[-2]` on the closed-form state is the radius of the
second-to-last step. -/
lemma stateAt_refR (env : Env) (K : ℕ) :
    (stateAt env K).radii.getD ((stateAt env K).radii.length - 2) 0 = radius env (K - 1) := by
  rw [stateAt_radii, List.length_map, List.length_range]
  have h1 : K + 1 - 2 = K - 1 := by omega
  rw [h1]
  exact getD_map_range (radius env) (K + 1) (K - 1) (by omega)

/-- When the starting radius is below half the image height, the loop does
not stop before its first iteration. -/
lemma stop_zero_iff (env : Env) (h2 : env.psf / 2 < (env.rows : ℚ) / 2) :
    ¬ stopAt env 0 := by
  rintro (hle | hb)
  · rw [radius, pow_zero, mul_one] at hle
    linarith
  · exact absurd hb.2 (by omega)

lemma least_stop_pos (env : Env) (h2 : env.psf / 2 < (env.rows : ℚ) / 2)
    (K : ℕ) (hstop : stopAt env K) : 1 ≤ K := by
  rcases Nat.eq_zero_or_pos K with rfl | h
  · exact absurd hstop (stop_zero_iff env h2)
  · exact h

/-- In `envC1` the noise-floor break never fires (the sampled quantile is
always 100 ≥ 3 × noise). -/
lemma envC1_no_break (j : ℕ) : ¬ breakAt envC1 j := by
  intro hb
  unfold breakAt at hb
  have h1 : envC1.quantile (isovalsAt envC1 j) (4/5) = 100 := rfl
  have h2 : envC1.noise = 1 := rfl
  rw [h1, h2] at hb
  exact absurd hb.1 (by norm_num)

/-- In `envC1` the first stopping step is at least 2 (radii 1 and 6/5 are
far below half the image height 20, and the break never fires). -/
lemma envC1_least_ge_two (K : ℕ) (hstop : stopAt envC1 K) : 2 ≤ K := by
  have h0 : ¬ stopAt envC1 0 := by
    rintro (hle | hb)
    · norm_num [radius, envC1] at hle
    · exact envC1_no_break 0 hb
  have h1 : ¬ stopAt envC1 1 := by
    rintro (hle | hb)
    · norm_num [radius, envC1] at hle
    · exact envC1_no_break 1 hb
  rcases Nat.lt_or_ge K 2 with hlt | hge
  · interval_cases K
    · exact absurd hstop h0
    · exact absurd hstop h1
  · exact hge

/-! ## Claim theorems -/

/-- C1 (amended: the growth bound is half the image *height*, `len(IMG)/2` —
the number of rows — not half the image width): for every image, center,
background, noise and positive PSF input, the radius-growth loop of
`Isophote_Initialize_CircFit` stops exactly at the first step at which
either the 80th percentile of the background-subtracted flux sampled on the
current circular isophote drops below 3 times the background noise with at
least 4 radii tried (`breakAt`), or the radius has reached half the image
height (`stopAt`); before that step neither condition holds. -/
theorem c1_radius_growth_stop (env : Env) (h : 0 < env.psf) :
    ∃ K, growLoop env (defaultFuel env) (initState env) = some (stateAt env K) ∧
      stopAt env K ∧ ∀ j, j < K → ¬ stopAt env j := by
  obtain ⟨K, h1, h2, h3⟩ := growLoop_main env h
  exact ⟨K, h3, h1, h2⟩

/-- C1 counterexample: on a 40-row × 2-column image with PSF width 2 and
samples that never fall below the noise floor, the loop does not stop at the
first step satisfying the claim's width-based condition: the width-based
stop already holds at step 1 while the loop keeps growing. -/
theorem c1_width_counterexample : ¬ claimedC1Stop envC1 := by
  rintro ⟨Kw, hloopw, _, hminw⟩
  obtain ⟨K, hstop, _, hloop⟩ := growLoop_main envC1 (by norm_num [envC1])
  have hKK : K = Kw := by
    rw [hloop] at hloopw
    have heq := Option.some.inj hloopw
    have hlen := congrArg (fun s => s.radii.length) heq
    simp only [stateAt_radii_length] at hlen
    omega
  have hKge : 2 ≤ K := envC1_least_ge_two K hstop
  have hW1 : stopAtW envC1 1 := by
    refine Or.inl ?_
    norm_num [radius, envC1]
  exact hminw 1 (by omega) hW1

/-- C1 witness: the amended statement applied to the concrete 4 × 4 image
environment. -/
theorem c1_radius_growth_stop_witness :
    0 < envW.psf ∧
    (∃ K, growLoop envW (defaultFuel envW) (initState envW) = some (stateAt envW K) ∧
      stopAt envW K ∧ ∀ j, j < K → ¬ stopAt envW j) :=
  ⟨by norm_num [envW], c1_radius_growth_stop envW (by norm_num [envW])⟩

/-- C5 (amended: growth stops once the radius reaches half the image
*height*, not width): for every image with positive PSF FWHM the radius
sequence starts at PSF FWHM / 2, each step multiplies the previous radius
by 1.2, the sequence is strictly increasing, the loop terminates within the
explicit fuel bound `defaultFuel` for every input — in particular when the
noise-floor rule never fires — and every grown radius except possibly the
last is below half the image height. -/
theorem c5_growth_termination (env : Env) (h : 0 < env.psf) :
    ∃ s, growLoop env (defaultFuel env) (initState env) = some s ∧
      s.radii.head? = some (env.psf / 2) ∧
      List.Chain' (fun a b => b = a * (6/5)) s.radii ∧
      List.Chain' (fun a b => a < b) s.radii ∧
      ∀ r ∈ s.radii.dropLast, r < (env.rows : ℚ) / 2 := by
  obtain ⟨K, _, hmin, hloop⟩ := growLoop_main env h
  refine ⟨stateAt env K, hloop, ?_, ?_, ?_, ?_⟩
  · rw [stateAt_radii, List.range_succ_eq_map, List.map_cons, List.head?_cons]
    simp [radius]
  · rw [stateAt_radii]
    exact chain_map_range (K + 1) (radius env) (fun i => (radius_succ env i).symm)
  · rw [stateAt_radii]
    refine chain_map_range (K + 1) (radius env) (fun i => ?_)
    have hpos := radius_pos env h i
    rw [← radius_succ env i]
    nlinarith
  · intro r hr
    rw [stateAt_radii, dropLast_map_range] at hr
    obtain ⟨i, hi, rfl⟩ := List.mem_map.mp hr
    have hiK : i < K := List.mem_range.mp hi
    have hns := hmin i hiK
    by_contra hcon
    exact hns (Or.inl (not_lt.mp hcon))

/-- C5 counterexample: on the 40-row × 2-column image the loop grows radii
well past half the image width, so the claim's width-based stop bound is
violated. -/
theorem c5_width_counterexample : ¬ claimedC5WidthStop envC1 := by
  intro hclaim
  obtain ⟨K, hstop, _, hloop⟩ := growLoop_main envC1 (by norm_num [envC1])
  have hKge : 2 ≤ K := envC1_least_ge_two K hstop
  have hmem : radius envC1 1 ∈ (stateAt envC1 K).radii.dropLast := by
    rw [stateAt_radii, dropLast_map_range]
    exact List.mem_map.mpr ⟨1, List.mem_range.mpr (by omega), rfl⟩
  have := hclaim (stateAt envC1 K) hloop (radius envC1 1) hmem
  norm_num [radius, envC1] at this

/-- C5 witness: the amended statement applied to the concrete 4 × 4 image
environment. -/
theorem c5_growth_termination_witness :
    0 < envW.psf ∧
    (∃ s, growLoop envW (defaultFuel envW) (initState envW) = some s ∧
      s.radii.head? = some (envW.psf / 2) ∧
      List.Chain' (fun a b => b = a * (6/5)) s.radii ∧
      List.Chain' (fun a b => a < b) s.radii ∧
      ∀ r ∈ s.radii.dropLast, r < (envW.rows : ℚ) / 2) :=
  ⟨by norm_num [envW], c5_growth_termination envW (by norm_num [envW])⟩

/-- C2: a step's 2nd-harmonic FFT coefficient is retained (`phasekeep`)
exactly when its magnitude strictly exceeds both the 1st and the 3rd
harmonic's; the returned position angle is computed from the mean of the
last 5 retained coefficients when at least 5 qualify and otherwise from the
outer half of all recorded coefficients, and it is reduced modulo π, lying
in `[0, π)`. -/
theorem c2_position_angle (env : Env) (kw : Kwargs) (h : 0 < env.psf)
    (h2 : env.psf / 2 < (env.rows : ℚ) / 2) (h3 : 0 < env.piQ) :
    ∃ K rec, growLoop env (defaultFuel env) (initState env) = some (stateAt env K) ∧
      CircFit env kw = some rec ∧
      (stateAt env K).allphase = (List.range K).map (fun i => coefAt env (i + 1) 2) ∧
      (stateAt env K).phasekeep =
        ((List.range K).filter (fun i => decide (dominant2 env (i + 1)))).map
          (fun i => coefAt env (i + 1) 2) ∧
      rec.init_pa =
        (if 5 ≤ (stateAt env K).phasekeep.length then
          pmod (-(env.arg (cmean ((stateAt env K).phasekeep.drop
            ((stateAt env K).phasekeep.length - 5)))) / 2) env.piQ
        else
          pmod (-(env.arg (cmean ((stateAt env K).allphase.drop
            ((stateAt env K).allphase.length / 2)))) / 2) env.piQ) ∧
      0 ≤ rec.init_pa ∧ rec.init_pa < env.piQ := by
  obtain ⟨K, hstop, hmin, hloop⟩ := growLoop_main env h
  have hK1 : 1 ≤ K := least_stop_pos env h2 K hstop
  have hlen2 : 2 ≤ (stateAt env K).radii.length := by
    rw [stateAt_radii_length]; omega
  refine ⟨K, circRecord env (stateAt env K), hloop,
    CircFit_eq_some env kw _ hloop hlen2, rfl, rfl, rfl, ?_, ?_⟩
  · have hpa : (circRecord env (stateAt env K)).init_pa = phaseOf env (stateAt env K) := rfl
    rw [hpa, phaseOf]
    split <;> exact pmod_nonneg _ _ h3
  · have hpa : (circRecord env (stateAt env K)).init_pa = phaseOf env (stateAt env K) := rfl
    rw [hpa, phaseOf]
    split <;> exact pmod_lt _ _ h3

/-- C2 witness: the statement applied to the concrete 4 × 4 image
environment. -/
theorem c2_position_angle_witness :
    0 < envW.psf ∧ envW.psf / 2 < (envW.rows : ℚ) / 2 ∧ 0 < envW.piQ ∧
    (∃ K rec, growLoop envW (defaultFuel envW) (initState envW) = some (stateAt envW K) ∧
      CircFit envW [] = some rec ∧
      (stateAt envW K).allphase = (List.range K).map (fun i => coefAt envW (i + 1) 2) ∧
      (stateAt envW K).phasekeep =
        ((List.range K).filter (fun i => decide (dominant2 envW (i + 1)))).map
          (fun i => coefAt envW (i + 1) 2) ∧
      rec.init_pa =
        (if 5 ≤ (stateAt envW K).phasekeep.length then
          pmod (-(envW.arg (cmean ((stateAt envW K).phasekeep.drop
            ((stateAt envW K).phasekeep.length - 5)))) / 2) envW.piQ
        else
          pmod (-(envW.arg (cmean ((stateAt envW K).allphase.drop
            ((stateAt envW K).allphase.length / 2)))) / 2) envW.piQ) ∧
      0 ≤ rec.init_pa ∧ rec.init_pa < envW.piQ) :=
  ⟨by norm_num [envW], by norm_num [envW], by norm_num [envW],
    c2_position_angle envW [] (by norm_num [envW]) (by norm_num [envW]) (by norm_num [envW])⟩

/-- C3: the global ellipticity estimate evaluates exactly 15 candidate
ellipticities evenly spaced in `[0.05, 0.95]` at the second-to-outermost
grown radius, with the 2nd-harmonic loss aggregated over 5 radii scaled by
0.8 to 1.2 around it (the grid minimiser is the same whether the 5 losses
are summed, as the code does, or averaged, as the spec says); the grid
minimiser seeds the local refinement in the transformed ellipticity
variable, and the refined value replaces the grid value exactly when the
optimizer reports success, with no consistency check against the grid
value. -/
theorem c3_ellipticity_estimate (env : Env) (kw : Kwargs) (h : 0 < env.psf)
    (h2 : env.psf / 2 < (env.rows : ℚ) / 2) :
    ∃ K rec, growLoop env (defaultFuel env) (initState env) = some (stateAt env K) ∧
      1 ≤ K ∧ CircFit env kw = some rec ∧
      rec.init_R = radius env (K - 1) ∧
      testEllipGrid = linspace (1/20) (19/20) 15 ∧
      testEllipGrid.length = 15 ∧
      testEllipGrid.head? = some (1/20) ∧
      testEllipGrid.getLast? = some (19/20) ∧
      List.Chain' (fun a b => b - a = 9/140) testEllipGrid ∧
      scaleFactors = [4/5, 9/10, 1, 11/10, 6/5] ∧
      argminIdx ((gridF2 env (radius env (K - 1)) rec.init_pa).map (fun v => v / 5)) =
        argminIdx (gridF2 env (radius env (K - 1)) rec.init_pa) ∧
      rec.init_ellip =
        (if (refineRes env (radius env (K - 1)) rec.init_pa
              (ellipGrid env (radius env (K - 1)) rec.init_pa)).1
         then env.x_to_eps (refineRes env (radius env (K - 1)) rec.init_pa
              (ellipGrid env (radius env (K - 1)) rec.init_pa)).2
         else ellipGrid env (radius env (K - 1)) rec.init_pa) := by
  obtain ⟨K, hstop, hmin, hloop⟩ := growLoop_main env h
  have hK1 : 1 ≤ K := least_stop_pos env h2 K hstop
  have hlen2 : 2 ≤ (stateAt env K).radii.length := by
    rw [stateAt_radii_length]; omega
  have hR := stateAt_refR env K
  refine ⟨K, circRecord env (stateAt env K), hloop, hK1,
    CircFit_eq_some env kw _ hloop hlen2, ?_, rfl, by simp [testEllipGrid],
    linspace_head _ _ 15 (by norm_num), linspace_getLast _ _ 15 (by norm_num), ?_, ?_,
    argminIdx_div_five _, ?_⟩
  · simp only [circRecord]
    rw [hR]
  · refine (linspace_chain (1/20) (19/20) 15).imp (fun a b hab => ?_)
    rw [hab]
    norm_num
  · simp [scaleFactors, linspace, List.range_succ]
    norm_num
  · simp only [circRecord]
    rw [hR]

/-- C3 witness: the statement applied to the concrete 4 × 4 image
environment. -/
theorem c3_ellipticity_estimate_witness :
    0 < envW.psf ∧ envW.psf / 2 < (envW.rows : ℚ) / 2 ∧
    (∃ K rec, growLoop envW (defaultFuel envW) (initState envW) = some (stateAt envW K) ∧
      1 ≤ K ∧ CircFit envW [] = some rec ∧
      rec.init_R = radius envW (K - 1) ∧
      testEllipGrid = linspace (1/20) (19/20) 15 ∧
      testEllipGrid.length = 15 ∧
      testEllipGrid.head? = some (1/20) ∧
      testEllipGrid.getLast? = some (19/20) ∧
      List.Chain' (fun a b => b - a = 9/140) testEllipGrid ∧
      scaleFactors = [4/5, 9/10, 1, 11/10, 6/5] ∧
      argminIdx ((gridF2 envW (radius envW (K - 1)) rec.init_pa).map (fun v => v / 5)) =
        argminIdx (gridF2 envW (radius envW (K - 1)) rec.init_pa) ∧
      rec.init_ellip =
        (if (refineRes envW (radius envW (K - 1)) rec.init_pa
              (ellipGrid envW (radius envW (K - 1)) rec.init_pa)).1
         then envW.x_to_eps (refineRes envW (radius envW (K - 1)) rec.init_pa
              (ellipGrid envW (radius envW (K - 1)) rec.init_pa)).2
         else ellipGrid envW (radius envW (K - 1)) rec.init_pa)) :=
  ⟨by norm_num [envW], by norm_num [envW],
    c3_ellipticity_estimate envW [] (by norm_num [envW]) (by norm_num [envW])⟩

/-- C4: both error bars are computed from resamples at exactly 10 radii
evenly spanning `reference radius ± PSF FWHM`, where the reference radius is
the second-to-outermost grown radius; each error is the 16th-to-84th
inter-percentile range of the resampled estimates divided by 2. -/
theorem c4_error_bars (env : Env) (kw : Kwargs) (h : 0 < env.psf)
    (h2 : env.psf / 2 < (env.rows : ℚ) / 2) :
    ∃ K rec, growLoop env (defaultFuel env) (initState env) = some (stateAt env K) ∧
      1 ≤ K ∧ CircFit env kw = some rec ∧
      rec.init_R = radius env (K - 1) ∧
      errRR env (radius env (K - 1)) =
        linspace (radius env (K - 1) - env.psf) (radius env (K - 1) + env.psf) 10 ∧
      (errRR env (radius env (K - 1))).length = 10 ∧
      (errRR env (radius env (K - 1))).head? = some (radius env (K - 1) - env.psf) ∧
      (errRR env (radius env (K - 1))).getLast? = some (radius env (K - 1) + env.psf) ∧
      List.Chain' (fun a b => b - a = 2 * env.psf / 9) (errRR env (radius env (K - 1))) ∧
      (samplePAs env (radius env (K - 1))).length = 10 ∧
      rec.init_pa_err = env.iqr1684 (samplePAs env (radius env (K - 1))) / 2 ∧
      rec.init_ellip_err =
        env.iqr1684 (sampleEllips env (radius env (K - 1)) rec.init_ellip) / 2 := by
  obtain ⟨K, hstop, hmin, hloop⟩ := growLoop_main env h
  have hK1 : 1 ≤ K := least_stop_pos env h2 K hstop
  have hlen2 : 2 ≤ (stateAt env K).radii.length := by
    rw [stateAt_radii_length]; omega
  have hR := stateAt_refR env K
  refine ⟨K, circRecord env (stateAt env K), hloop, hK1,
    CircFit_eq_some env kw _ hloop hlen2, ?_, rfl, by simp [errRR],
    by rw [errRR]; exact linspace_head _ _ 10 (by norm_num),
    by rw [errRR]; exact linspace_getLast _ _ 10 (by norm_num), ?_, ?_, ?_, ?_⟩
  · simp only [circRecord]
    rw [hR]
  · rw [errRR]
    refine (linspace_chain _ _ 10).imp (fun a b hab => ?_)
    rw [hab]
    ring_nf
  · simp [samplePAs, errallphase, errRR]
  · simp only [circRecord]
    rw [hR]
  · simp only [circRecord]
    rw [hR]

/-- C4 witness: the statement applied to the concrete 4 × 4 image
environment. -/
theorem c4_error_bars_witness :
    0 < envW.psf ∧ envW.psf / 2 < (envW.rows : ℚ) / 2 ∧
    (∃ K rec, growLoop envW (defaultFuel envW) (initState envW) = some (stateAt envW K) ∧
      1 ≤ K ∧ CircFit envW [] = some rec ∧
      rec.init_R = radius envW (K - 1) ∧
      errRR envW (radius envW (K - 1)) =
        linspace (radius envW (K - 1) - envW.psf) (radius envW (K - 1) + envW.psf) 10 ∧
      (errRR envW (radius envW (K - 1))).length = 10 ∧
      (errRR envW (radius envW (K - 1))).head? = some (radius envW (K - 1) - envW.psf) ∧
      (errRR envW (radius envW (K - 1))).getLast? = some (radius envW (K - 1) + envW.psf) ∧
      List.Chain' (fun a b => b - a = 2 * envW.psf / 9) (errRR envW (radius envW (K - 1))) ∧
      (samplePAs envW (radius envW (K - 1))).length = 10 ∧
      rec.init_pa_err = envW.iqr1684 (samplePAs envW (radius envW (K - 1))) / 2 ∧
      rec.init_ellip_err =
        envW.iqr1684 (sampleEllips envW (radius envW (K - 1)) rec.init_ellip) / 2) :=
  ⟨by norm_num [envW], by norm_num [envW],
    c4_error_bars envW [] (by norm_num [envW]) (by norm_num [envW])⟩

/-- C6 (code bug): with the per-image exception handler commented out in
`Process_Image` (lines 147 and 152-154), an exception raised inside one
image's pipeline stage propagates out of `Process_Image` and aborts the
whole sequential batch: on the two-image batch `imgsP`, where image `"a"`
raises in the `"psf"` stage, `Process_List` returns the propagated error
instead of per-image success/fail codes, while the spec-modelled variant
with the handler returns the code list `[1, 0]`. -/
theorem c6_batch_abort_eval :
    ProcessList envP defaultSteps imgsP = Except.error 7 ∧
    ProcessList_spec envP defaultSteps imgsP = Except.ok [1, 0] :=
  ⟨rfl, rfl⟩

/-- C7 (amended: the Profile Extractor runs before the Fit Quality Checker,
the reverse of the claimed order): in the default pipeline
`isophoteextract` is stage 6 and `checkfit` is stage 7, and each stage
receives as its `results` input exactly the outputs of the stages that ran
before it, in order. -/
theorem c7_stage_order (env : PipeEnv) (dat : ℕ) :
    defaultSteps.indexOf extractStep = 6 ∧
    defaultSteps.indexOf checkfitStep = 7 ∧
    (∀ i acc, accAt env dat defaultSteps i = some acc →
      acc.map Prod.fst = defaultSteps.take i) :=
  ⟨by decide, by decide, accAt_fst env dat defaultSteps⟩

/-- C7 counterexample: the claimed order (Checker before Extractor) is
false for the default pipeline steps. -/
theorem c7_checker_order_counterexample :
    ¬ defaultSteps.indexOf checkfitStep < defaultSteps.indexOf extractStep := by
  decide

/-- C7 witness: the dependency property applied at a concrete pipeline
environment, stage index and accumulator. -/
theorem c7_stage_order_witness :
    accAt envP 1 defaultSteps 2 = some [("background", 0), ("psf", 0)] ∧
    List.map Prod.fst [("background", (0 : ℕ)), ("psf", 0)] = defaultSteps.take 2 :=
  ⟨rfl, (c7_stage_order envP 1).2.2 2 [("background", 0), ("psf", 0)] rfl⟩

/-- C8 (amended: none of the core configuration values can be overridden
per run): the initializer functions accept arbitrary keyword arguments but
their outputs are invariant under them (in the source, kwargs only toggle
diagnostic plotting); the ellipticity grid has exactly 15 fixed candidates,
the 5 scale factors are the fixed list 0.8 … 1.2, the grid-search
initializer's grid has exactly 10 × 20 = 200 fixed candidates, and the
radius growth factor is the fixed constant 1.2. -/
theorem c8_no_kwargs_override :
    (∀ (env : Env) (k1 k2 : Kwargs),
      CircFit env k1 = CircFit env k2 ∧ GridSearch env k1 = GridSearch env k2) ∧
    testEllipGrid.length = 15 ∧
    scaleFactors = [4/5, 9/10, 1, 11/10, 6/5] ∧
    (∀ env : Env, (gsInits env).length = 200) ∧
    (∀ (env : Env) (k : ℕ), radius env (k + 1) = radius env k * (6/5)) := by
  refine ⟨fun env k1 k2 => ⟨rfl, rfl⟩, by simp [testEllipGrid], ?_,
    gsInits_length, fun env k => (radius_succ env k).symm⟩
  simp [scaleFactors, linspace, List.range_succ]
  norm_num

/-- C8 counterexample: no keyword-argument value changes the output of
either initializer on the concrete 4 × 4 image environment. -/
theorem c8_override_counterexample : ¬ claimedC8Override := by
  rintro ⟨kw, h | h⟩
  · exact h rfl
  · exact h rfl

/-- C9: when `PSF FWHM / 2` is below half the image height and the loop
completes, at least two radii were grown, the reference access
`circ_ellipse_radii[-2]` is in bounds and (for positive PSF width) the
function returns a record whose `init R` is the second-to-outermost radius;
when `PSF FWHM / 2` is at least half the image height only one radius
exists, the `[-2]` access is out of bounds and the function returns no
record. -/
theorem c9_reference_radius_safety (env : Env) (kw : Kwargs) :
    (0 < env.psf → env.psf / 2 < (env.rows : ℚ) / 2 →
      ∃ K rec, growLoop env (defaultFuel env) (initState env) = some (stateAt env K) ∧
        1 ≤ K ∧ 2 ≤ (stateAt env K).radii.length ∧
        CircFit env kw = some rec ∧ rec.init_R = radius env (K - 1)) ∧
    (∀ s, growLoop env (defaultFuel env) (initState env) = some s →
      env.psf / 2 < (env.rows : ℚ) / 2 → 2 ≤ s.radii.length) ∧
    ((env.rows : ℚ) / 2 ≤ env.psf / 2 → CircFit env kw = none) := by
  refine ⟨?_, ?_, ?_⟩
  · intro h h2
    obtain ⟨K, hstop, hmin, hloop⟩ := growLoop_main env h
    have hK1 : 1 ≤ K := least_stop_pos env h2 K hstop
    have hlen2 : 2 ≤ (stateAt env K).radii.length := by
      rw [stateAt_radii_length]; omega
    refine ⟨K, circRecord env (stateAt env K), hloop, hK1, hlen2,
      CircFit_eq_some env kw _ hloop hlen2, ?_⟩
    have hR := stateAt_refR env K
    simp only [circRecord]
    rw [hR]
  · intro s hs hlt
    have hf : defaultFuel env =
        ((⌈5 * ((env.rows : ℚ) / 2) / (env.psf / 2)⌉).toNat + 1) + 1 := rfl
    rw [hf, growLoop] at hs
    rw [if_pos (by rw [initState_cur]; exact hlt)] at hs
    by_cases hb : breakTest env (growStep env (initState env))
    · rw [if_pos hb] at hs
      have := Option.some.inj hs
      rw [← this, growStep_radii_length, initState_radii_length]
    · rw [if_neg hb] at hs
      have hmono := growLoop_length_mono env _ _ _ hs
      rw [growStep_radii_length, initState_radii_length] at hmono
      exact hmono
  · intro hge
    have hcur : ¬ ((initState env).cur < (env.rows : ℚ) / 2) := by
      rw [initState_cur]
      exact not_lt.mpr hge
    have hf : defaultFuel env =
        ((⌈5 * ((env.rows : ℚ) / 2) / (env.psf / 2)⌉).toNat + 1) + 1 := rfl
    rw [CircFit, hf, growLoop, if_neg hcur]
    simp [initState]

/-- C9 witness: on the 4 × 4 image the function returns a record with the
second-to-outermost radius, and on the 2-row image with PSF width 4 it
returns none. -/
theorem c9_reference_radius_safety_witness :
    (∃ K rec, growLoop envW (defaultFuel envW) (initState envW) = some (stateAt envW K) ∧
      1 ≤ K ∧ 2 ≤ (stateAt envW K).radii.length ∧
      CircFit envW [] = some rec ∧ rec.init_R = radius envW (K - 1)) ∧
    CircFit envN [] = none :=
  ⟨(c9_reference_radius_safety envW []).1 (by norm_num [envW]) (by norm_num [envW]),
    (c9_reference_radius_safety envN []).2.2 (by norm_num [envN])⟩

/-- C10: `Isophote_Initialize_CircFit` is deterministic — the embedding is a
pure function of the image inputs, the external collaborators and the
keyword arguments, with no source of randomness, so two runs on identical
inputs return identical records. -/
theorem c10_deterministic (e1 e2 : Env) (k1 k2 : Kwargs)
    (he : e1 = e2) (hk : k1 = k2) : CircFit e1 k1 = CircFit e2 k2 := by
  rw [he, hk]

/-- C10 witness: two identical runs on the concrete 4 × 4 image
environment. -/
theorem c10_deterministic_witness : CircFit envW [] = CircFit envW [] :=
  c10_deterministic envW envW [] [] rfl rfl

end AutoProf
